import Mathlib

/-!
Verification model of the notebook
"intro-to-pytorch/Part 5 - Inference and Validation (Exercises).ipynb".

The notebook defines a feedforward classifier (cell 3), a dropout variant
(cell 17), two 30-epoch training loops with a per-epoch validation pass
(cells 14 and 18), an accuracy computation built from topk / equality /
mean (cells 7-12), and a final inference-and-plot cell (cell 20).

The embedding works at two levels:

* tensor level: vectors and matrices are lists of rationals; linear layers,
  ReLU, dropout and the topk / equals / mean accuracy pipeline are modelled
  directly.  The transcendental parts delegated to the framework
  (log-sum-exp inside log_softmax, random weight initialization, dropout
  mask sampling) enter as explicit function parameters.

* loop level: the two training cells compile to lists of atomic
  instructions (zero_grad, forward, loss, backward, step, the accumulator
  updates, mode switches, print and plot) which a small-step interpreter
  executes over a state holding the parameters, the train/eval flag, the
  gradient slot and the running metrics.  The framework's numeric work
  (forward output, NLL loss value, batch accuracy value, the Adam update)
  is abstracted by an Ops record.
-/

namespace P5

/-- Dot product of two rational vectors: one row of a matrix-vector product. -/
def dot (xs ys : List ℚ) : ℚ := (List.zipWith (fun a b => a * b) xs ys).sum

/-- Model of torch.nn.Linear: a weight matrix, one row per output feature,
and a bias vector. -/
structure Linear where
  weight : List (List ℚ)
  bias : List ℚ

/-- Applying a linear layer to an input vector. -/
def Linear.apply (l : Linear) (x : List ℚ) : List ℚ :=
  List.zipWith (fun row b => dot row x + b) l.weight l.bias

/-- Model of nn.Linear(inF, outF): an outF-by-inF weight matrix and an
outF bias vector, entries drawn from the framework's random initializer,
abstracted as the function init. -/
def mkLinear (init : ℕ → ℕ → ℚ) (inF outF : ℕ) : Linear :=
  { weight := (List.range outF).map fun i => (List.range inF).map fun j => init i j
    bias := (List.range outF).map fun i => init i inF }

/-- F.relu on one scalar. -/
def relu (x : ℚ) : ℚ := max x 0

/-- F.relu applied elementwise to a vector. -/
def reluVec (xs : List ℚ) : List ℚ := xs.map relu

/-- F.log_softmax over one row: entry i becomes x i minus the log-sum-exp of
the row.  The transcendental log-sum-exp is the framework's and is
abstracted as lse. -/
def log_softmax (lse : List ℚ → ℚ) (xs : List ℚ) : List ℚ :=
  xs.map fun v => v - lse xs

/-- The Classifier of cell 3: four fully connected layers. -/
structure Classifier where
  fc1 : Linear
  fc2 : Linear
  fc3 : Linear
  fc4 : Linear

/-- Classifier.__init__ of cell 3: nn.Linear(784, 256), nn.Linear(256, 128),
nn.Linear(128, 64), nn.Linear(64, 10), randomly initialized (rnd k is the
random source used for layer k). -/
def mkClassifier (rnd : ℕ → ℕ → ℕ → ℚ) : Classifier :=
  { fc1 := mkLinear (rnd 1) 784 256
    fc2 := mkLinear (rnd 2) 256 128
    fc3 := mkLinear (rnd 3) 128 64
    fc4 := mkLinear (rnd 4) 64 10 }

/-- Classifier.forward of cell 3 on one image: flatten the image, apply the
three ReLU-activated hidden layers, then the log-softmax of the fourth
layer's output. -/
def Classifier.forward1 (lse : List ℚ → ℚ) (c : Classifier) (img : List (List ℚ)) : List ℚ :=
  let x0 := img.flatten
  let x1 := reluVec (c.fc1.apply x0)
  let x2 := reluVec (c.fc2.apply x1)
  let x3 := reluVec (c.fc3.apply x2)
  log_softmax lse (c.fc4.apply x3)

/-- Classifier.forward on a batch: x.view(x.shape[0], -1) flattens each image
and every layer acts row-wise, so the batch output is the row-wise forward
pass. -/
def Classifier.forward (lse : List ℚ → ℚ) (c : Classifier) (batch : List (List (List ℚ))) : List (List ℚ) :=
  batch.map (c.forward1 lse)

/-- nn.Dropout(p) applied to a vector, given the Bernoulli(p) drop decisions
mask sampled by the framework: in training mode a dropped unit becomes 0 and
a kept unit is rescaled by 1/(1-p); in eval mode the input passes through
unchanged. -/
def dropoutVec (p : ℚ) (training : Bool) (mask : List Bool) (xs : List ℚ) : List ℚ :=
  if training then List.zipWith (fun x m => if m then 0 else x / (1 - p)) xs mask else xs

/-- The dropout variant of Classifier defined in cell 17: the same four
layers plus a dropout module whose probability is the field dropout. -/
structure ClassifierD where
  fc1 : Linear
  fc2 : Linear
  fc3 : Linear
  fc4 : Linear
  dropout : ℚ

/-- Cell 17's __init__: the four layers of cell 3 plus
self.dropout = nn.Dropout(p=0.2). -/
def mkClassifierD (rnd : ℕ → ℕ → ℕ → ℚ) : ClassifierD :=
  { fc1 := mkLinear (rnd 1) 784 256
    fc2 := mkLinear (rnd 2) 256 128
    fc3 := mkLinear (rnd 3) 128 64
    fc4 := mkLinear (rnd 4) 64 10
    dropout := 1 / 5 }

/-- forward of cell 17 on one image; m1 m2 m3 are the framework-sampled
dropout masks of the three hidden layers. -/
def ClassifierD.forward1 (lse : List ℚ → ℚ) (c : ClassifierD) (training : Bool)
    (m1 m2 m3 : List Bool) (img : List (List ℚ)) : List ℚ :=
  let x0 := img.flatten
  let x1 := dropoutVec c.dropout training m1 (reluVec (c.fc1.apply x0))
  let x2 := dropoutVec c.dropout training m2 (reluVec (c.fc2.apply x1))
  let x3 := dropoutVec c.dropout training m3 (reluVec (c.fc3.apply x2))
  log_softmax lse (c.fc4.apply x3)

/-- The spec's description of the dropout-variant forward pass, written out
as a function: dropout of drop probability 0.2 applied to the ReLU output of
each of the three hidden layers, and no dropout on the log-softmax output
layer.  Stated from the spec's words for comparison with
ClassifierD.forward1, which is translated from the code. -/
def dropoutForwardSpec (lse : List ℚ → ℚ) (w1 w2 w3 w4 : Linear) (training : Bool)
    (m1 m2 m3 : List Bool) (img : List (List ℚ)) : List ℚ :=
  log_softmax lse (w4.apply
    (dropoutVec (2/10) training m3 (reluVec (w3.apply
      (dropoutVec (2/10) training m2 (reluVec (w2.apply
        (dropoutVec (2/10) training m1 (reluVec (w1.apply img.flatten))))))))))

/-- The index of the largest entry of a row, ties resolved to the earliest
index: the index part of ps.topk(1, dim=1) for that row. -/
def argmaxIdx : List ℚ → ℕ
  | [] => 0
  | [_] => 0
  | x :: y :: ys =>
    let j := argmaxIdx (y :: ys)
    if (y :: ys).getD j 0 ≤ x then 0 else j + 1

/-- top_class, the index component of ps.topk(1, dim=1): a shape (N, 1)
tensor of most-likely class indices. -/
def topkIndices (ps : List (List ℚ)) : List (List ℕ) :=
  ps.map fun row => [argmaxIdx row]

/-- equals = top_class == labels.view(*top_class.shape): the labels reshaped
to (N, 1) and compared entrywise, giving a shape (N, 1) result. -/
def equalsReshaped (top : List (List ℕ)) (labels : List ℕ) : List (List Bool) :=
  List.zipWith (fun r l => r.map fun c => decide (c = l)) top labels

/-- equals = top_class == labels without the reshape: shapes (N, 1) and (N,)
broadcast to (N, N), comparing the single entry of each top_class row with
every label. -/
def equalsBroadcast (top : List (List ℕ)) (labels : List ℕ) : List (List Bool) :=
  top.map fun r => labels.map fun l => decide (r.headI = l)

/-- A boolean comparison result as the 0/1 numeric content of one ByteTensor
entry. -/
def boolToByte (b : Bool) : ℚ := if b then 1 else 0

/-- The two tensor element types the notebook manipulates. -/
inductive DType where
  | uint8
  | float32
  deriving DecidableEq

/-- A tensor as its dtype together with its flattened numeric data. -/
structure Tensor where
  dtype : DType
  data : List ℚ

/-- The equals tensor of cells 9, 14 and 18: the == comparison of the
topk indices against the reshaped labels yields a torch.uint8 (ByteTensor)
result. -/
def equalsTensor (ps : List (List ℚ)) (labels : List ℕ) : Tensor :=
  { dtype := DType.uint8
    data := (equalsReshaped (topkIndices ps) labels).flatten.map boolToByte }

/-- torch.mean: defined for float tensors; on a ByteTensor input the
framework raises a RuntimeError. -/
def torch_mean (t : Tensor) : Except String ℚ :=
  match t.dtype with
  | DType.uint8 => Except.error ("mean is not implemented for type torch.ByteTensor")
  | DType.float32 => Except.ok (t.data.sum / (t.data.length : ℚ))

/-- equals.type(torch.FloatTensor): the same data reinterpreted as floats. -/
def Tensor.typeFloat (t : Tensor) : Tensor := { t with dtype := DType.float32 }

/-- torch.mean(equals.type(torch.FloatTensor)): the accuracy expression of
cells 12, 14 and 18. -/
def accuracyExpr (ps : List (List ℚ)) (labels : List ℕ) : Except String ℚ :=
  torch_mean ((equalsTensor ps labels).typeFloat)

/-- The rational value of the per-batch accuracy: the fraction of entries of
the equals tensor that are 1. -/
def accuracyValue (ps : List (List ℚ)) (labels : List ℕ) : ℚ :=
  ((equalsTensor ps labels).data).sum / (((equalsTensor ps labels).data).length : ℚ)

/-- Given per-batch correct counts cs and per-batch sizes ns, the unweighted
mean of the per-batch accuracies: the quantity the loops report as
accuracy / len(testloader). -/
def unweightedMean (cs ns : List ℕ) : ℚ :=
  (List.zipWith (fun (c n : ℕ) => (c : ℚ) / (n : ℚ)) cs ns).sum / (ns.length : ℚ)

/-- Dataset-level accuracy: total correct over total examples. -/
def datasetAcc (cs ns : List ℕ) : ℚ := ((cs.sum : ℕ) : ℚ) / ((ns.sum : ℕ) : ℚ)

/-- The correct-count assignment in which batch j is fully correct and every
other batch fully wrong. -/
def unitCs : List ℕ → ℕ → List ℕ
  | [], _ => []
  | n :: ns, 0 => n :: ns.map fun _ => 0
  | _ :: ns, j + 1 => 0 :: unitCs ns j

section Machine

/-- The atomic operations performed by the notebook's training cells (14 and
18) and the inference cell (20), over abstract mini-batches of type B.  The
saveI and loadI instructions belong to the vocabulary only so that their
absence from the notebook's programs is expressible. -/
inductive Instr (B : Type) where
  | zeroGrad
  | forwardI (b : B) (noGrad : Bool)
  | lossI (b : B)
  | backward
  | stepI
  | accumRunning
  | accumTestLoss
  | accumAcc (b : B)
  | resetEpoch
  | resetVal
  | evalMode
  | trainMode
  | printMetrics
  | plotI
  | saveI
  | loadI
  deriving DecidableEq

/-- The numeric work the notebook delegates to the framework: fwd p m b is
the model's forward output (log_ps) with parameters p and train flag m on
batch b; nllLoss o b is the value of criterion(o, labels of b); accOf o b is
the value of torch.mean(equals.type(torch.FloatTensor)) computed from o and
b; stepF p b is the parameter vector after optimizer.step() applies the
gradient of batch b. -/
structure Ops (P O B : Type) where
  fwd : P → Bool → B → O
  nllLoss : O → B → ℚ
  accOf : O → B → ℚ
  stepF : P → B → P

/-- The mutable state of the notebook while the training cells run.  out is
the last forward output log_ps (none before any forward); outGraph records
whether that output carries an autograd graph and for which batch; lossGraph
likewise for the last computed loss; grad is the gradient slot of the
optimizer, represented by the batch that produced it; fwdLog records, for
every forward pass performed, the model's train/eval flag and whether the
pass ran inside torch.no_grad(); printed and plotted record the cell
outputs. -/
structure MState (P O B : Type) where
  params : P
  mode : Bool
  grad : Option B
  out : Option O
  outGraph : Option B
  lossGraph : Option B
  lastLoss : ℚ
  runningLoss : ℚ
  testLoss : ℚ
  accuracy : ℚ
  fwdLog : List (Bool × Bool)
  printed : List (ℚ × ℚ × ℚ)
  plotted : ℕ

variable {P O B : Type}

/-- One atomic operation of the notebook, executed on the state. -/
def exec (ops : Ops P O B) (tL vL : List B) (s : MState P O B) : Instr B → MState P O B
  | Instr.zeroGrad => { s with grad := none }
  | Instr.forwardI b ng =>
      { s with out := some (ops.fwd s.params s.mode b)
               outGraph := if ng then none else some b
               fwdLog := s.fwdLog ++ [(s.mode, ng)] }
  | Instr.lossI b =>
      { s with lastLoss := match s.out with
                 | some o => ops.nllLoss o b
                 | none => 0
               lossGraph := s.outGraph }
  | Instr.backward => { s with grad := s.lossGraph }
  | Instr.stepI =>
      { s with params := match s.grad with
                 | some b => ops.stepF s.params b
                 | none => s.params }
  | Instr.accumRunning => { s with runningLoss := s.runningLoss + s.lastLoss }
  | Instr.accumTestLoss => { s with testLoss := s.testLoss + s.lastLoss }
  | Instr.accumAcc b =>
      { s with accuracy := s.accuracy + match s.out with
                 | some o => ops.accOf o b
                 | none => 0 }
  | Instr.resetEpoch => { s with runningLoss := 0 }
  | Instr.resetVal => { s with testLoss := 0, accuracy := 0 }
  | Instr.evalMode => { s with mode := false }
  | Instr.trainMode => { s with mode := true }
  | Instr.printMetrics =>
      { s with printed := s.printed ++
          [(s.runningLoss / (tL.length : ℚ),
            s.testLoss / (vL.length : ℚ),
            s.accuracy / (vL.length : ℚ))] }
  | Instr.plotI => { s with plotted := s.plotted + 1 }
  | Instr.saveI => s
  | Instr.loadI => s

/-- Running a list of instructions from a state. -/
def execProg (ops : Ops P O B) (tL vL : List B) (s : MState P O B) (l : List (Instr B)) : MState P O B :=
  l.foldl (exec ops tL vL) s

/-- The state just after model = Classifier(); criterion = nn.NLLLoss();
optimizer = optim.Adam(model.parameters(), lr=0.003): freshly constructed
parameters p, training flag True (the torch default), nothing computed yet
and nothing printed or plotted. -/
def initState (p : P) : MState P O B :=
  { params := p, mode := true, grad := none, out := none, outGraph := none,
    lossGraph := none, lastLoss := 0, runningLoss := 0, testLoss := 0,
    accuracy := 0, fwdLog := [], printed := [], plotted := 0 }

/-- The body of the training loop of cells 14 and 18, in source order:
optimizer.zero_grad(); log_ps = model(images); loss = criterion(log_ps,
labels); loss.backward(); optimizer.step(); running_loss += loss.item(). -/
def trainBatchProg (b : B) : List (Instr B) :=
  [Instr.zeroGrad, Instr.forwardI b false, Instr.lossI b, Instr.backward,
   Instr.stepI, Instr.accumRunning]

/-- The body of the validation loop of cell 14, inside with torch.no_grad():
log_ps = model(images); test_loss += criterion(log_ps, labels);
accuracy += torch.mean(equals.type(torch.FloatTensor)). -/
def valBatchProg (b : B) : List (Instr B) :=
  [Instr.forwardI b true, Instr.lossI b, Instr.accumTestLoss, Instr.accumAcc b]

/-- The body of the validation loop of cell 18: the same as cell 14 but with
the extra model.eval() at the top of every iteration. -/
def valBatchProgD (b : B) : List (Instr B) := Instr.evalMode :: valBatchProg b

/-- One epoch of cell 14: running_loss = 0; the training loop over the
trainloader; then (the for-else branch) test_loss = 0 and accuracy = 0, the
validation loop over the testloader inside torch.no_grad(), and the print of
the three per-epoch metrics. -/
def epochProg (tL vL : List B) : List (Instr B) :=
  [Instr.resetEpoch] ++ tL.flatMap trainBatchProg
    ++ [Instr.resetVal] ++ vL.flatMap valBatchProg
    ++ [Instr.printMetrics]

/-- One epoch of cell 18: as cell 14, with model.eval() before the
validation loop (and again in every iteration) and model.train() before the
print, hence before the next epoch's training batches. -/
def epochProgD (tL vL : List B) : List (Instr B) :=
  [Instr.resetEpoch] ++ tL.flatMap trainBatchProg
    ++ [Instr.resetVal, Instr.evalMode] ++ vL.flatMap valBatchProgD
    ++ [Instr.trainMode, Instr.printMetrics]

/-- epochs = 30 in both training cells. -/
def epochs : ℕ := 30

/-- n repetitions of any list: for e in range(n) over an epoch program (also
used for the per-epoch forward-pass logs). -/
def repList {α : Type} (l : List α) : ℕ → List α
  | 0 => []
  | n + 1 => l ++ repList l n

/-- Cell 20: model.eval(), a forward pass on one test image inside
torch.no_grad(), then helper.view_classify renders the image with its
predicted class probabilities. -/
def cell20Prog (b0 : B) : List (Instr B) :=
  [Instr.evalMode, Instr.forwardI b0 true, Instr.plotI]

/-- The executable cells of the notebook in order: cell 14's 30-epoch run,
cell 18's 30-epoch run with the dropout model, then cell 20's
inference-and-plot. -/
def notebookProg (tL vL : List B) (b0 : B) : List (Instr B) :=
  repList (epochProg tL vL) epochs ++ repList (epochProgD tL vL) epochs ++ cell20Prog b0

/-- The successive training-batch losses of one epoch: each batch's loss is
taken at the parameters current when that batch is processed, before the
optimizer step for that batch. -/
def lossSeq (ops : Ops P O B) (m : Bool) : P → List B → List ℚ
  | _, [] => []
  | p, b :: bs => ops.nllLoss (ops.fwd p m b) b :: lossSeq ops m (ops.stepF p b) bs

/-- Parameters after one epoch's training loop. -/
def stepParams (ops : Ops P O B) (tL : List B) (p : P) : P := tL.foldl ops.stepF p

/-- Parameters after n epochs of training. -/
def paramsAfterEpochs (ops : Ops P O B) (tL : List B) (p : P) : ℕ → P
  | 0 => p
  | n + 1 => paramsAfterEpochs ops tL (stepParams ops tL p) n

/-- The triple printed at the end of one epoch of cell 14 that starts with
parameters p and train flag m: accumulated training loss over the number of
training batches, accumulated test loss over the number of test batches, and
accumulated per-batch accuracy over the number of test batches. -/
def epochTriple (ops : Ops P O B) (tL vL : List B) (m : Bool) (p : P) : ℚ × ℚ × ℚ :=
  ((lossSeq ops m p tL).sum / (tL.length : ℚ),
   (vL.map fun b => ops.nllLoss (ops.fwd (stepParams ops tL p) m b) b).sum / (vL.length : ℚ),
   (vL.map fun b => ops.accOf (ops.fwd (stepParams ops tL p) m b) b).sum / (vL.length : ℚ))

/-- The triple printed at the end of one epoch of cell 18 that starts with
parameters p and train flag m: the validation metrics are computed in eval
mode. -/
def epochTripleD (ops : Ops P O B) (tL vL : List B) (m : Bool) (p : P) : ℚ × ℚ × ℚ :=
  ((lossSeq ops m p tL).sum / (tL.length : ℚ),
   (vL.map fun b => ops.nllLoss (ops.fwd (stepParams ops tL p) false b) b).sum / (vL.length : ℚ),
   (vL.map fun b => ops.accOf (ops.fwd (stepParams ops tL p) false b) b).sum / (vL.length : ℚ))

/-- The train/eval and no-grad flags of the forward passes of one epoch of
cell 18: training forwards in train mode with gradients on, validation
forwards in eval mode under no_grad. -/
def epochLog (tL vL : List B) : List (Bool × Bool) :=
  tL.map (fun _ => (true, false)) ++ vL.map (fun _ => (false, true))

theorem execProg_nil (ops : Ops P O B) (tL vL : List B) (s : MState P O B) :
    execProg ops tL vL s [] = s := rfl

theorem execProg_cons (ops : Ops P O B) (tL vL : List B) (s : MState P O B)
    (i : Instr B) (l : List (Instr B)) :
    execProg ops tL vL s (i :: l) = execProg ops tL vL (exec ops tL vL s i) l := rfl

theorem execProg_singleton (ops : Ops P O B) (tL vL : List B) (s : MState P O B)
    (i : Instr B) :
    execProg ops tL vL s [i] = exec ops tL vL s i := rfl

theorem execProg_append (ops : Ops P O B) (tL vL : List B) (s : MState P O B)
    (l1 l2 : List (Instr B)) :
    execProg ops tL vL s (l1 ++ l2) = execProg ops tL vL (execProg ops tL vL s l1) l2 :=
  List.foldl_append _ _ _ _

/-- Executing one training-batch body: loss is computed at the pre-step
parameters in the current mode, backward moves that loss's graph into the
gradient slot, step applies it, and the loss value is added to the running
loss. -/
theorem trainBatch_exec (ops : Ops P O B) (tL vL : List B) (s : MState P O B) (b : B) :
    execProg ops tL vL s (trainBatchProg b) =
      { s with grad := some b
               out := some (ops.fwd s.params s.mode b)
               outGraph := some b
               lossGraph := some b
               lastLoss := ops.nllLoss (ops.fwd s.params s.mode b) b
               params := ops.stepF s.params b
               runningLoss := s.runningLoss + ops.nllLoss (ops.fwd s.params s.mode b) b
               fwdLog := s.fwdLog ++ [(s.mode, false)] } := by
  simp [trainBatchProg, execProg, exec]

/-- Executing one cell-14 validation-batch body: a no-grad forward pass, the
test-loss and accuracy accumulations, and no parameter or mode change. -/
theorem valBatch_exec (ops : Ops P O B) (tL vL : List B) (s : MState P O B) (b : B) :
    execProg ops tL vL s (valBatchProg b) =
      { s with out := some (ops.fwd s.params s.mode b)
               outGraph := none
               lossGraph := none
               lastLoss := ops.nllLoss (ops.fwd s.params s.mode b) b
               testLoss := s.testLoss + ops.nllLoss (ops.fwd s.params s.mode b) b
               accuracy := s.accuracy + ops.accOf (ops.fwd s.params s.mode b) b
               fwdLog := s.fwdLog ++ [(s.mode, true)] } := by
  simp [valBatchProg, execProg, exec]

/-- Executing one cell-18 validation-batch body: model.eval() first, so the
forward pass runs in eval mode. -/
theorem valBatchD_exec (ops : Ops P O B) (tL vL : List B) (s : MState P O B) (b : B) :
    execProg ops tL vL s (valBatchProgD b) =
      { s with mode := false
               out := some (ops.fwd s.params false b)
               outGraph := none
               lossGraph := none
               lastLoss := ops.nllLoss (ops.fwd s.params false b) b
               testLoss := s.testLoss + ops.nllLoss (ops.fwd s.params false b) b
               accuracy := s.accuracy + ops.accOf (ops.fwd s.params false b) b
               fwdLog := s.fwdLog ++ [(false, true)] } := by
  simp [valBatchProgD, valBatchProg, execProg, exec]

theorem trainSeg_params (ops : Ops P O B) (tL vL : List B) (bs : List B) :
    ∀ s : MState P O B,
    (execProg ops tL vL s (bs.flatMap trainBatchProg)).params = bs.foldl ops.stepF s.params := by
  induction bs with
  | nil => intro s; rfl
  | cons b t ih =>
    intro s
    rw [List.flatMap_cons, execProg_append, trainBatch_exec]
    simp [ih]

theorem trainSeg_mode (ops : Ops P O B) (tL vL : List B) (bs : List B) :
    ∀ s : MState P O B,
    (execProg ops tL vL s (bs.flatMap trainBatchProg)).mode = s.mode := by
  induction bs with
  | nil => intro s; rfl
  | cons b t ih =>
    intro s
    rw [List.flatMap_cons, execProg_append, trainBatch_exec]
    simp [ih]

theorem trainSeg_running (ops : Ops P O B) (tL vL : List B) (bs : List B) :
    ∀ s : MState P O B,
    (execProg ops tL vL s (bs.flatMap trainBatchProg)).runningLoss
      = s.runningLoss + (lossSeq ops s.mode s.params bs).sum := by
  induction bs with
  | nil => intro s; simp [lossSeq, execProg]
  | cons b t ih =>
    intro s
    rw [List.flatMap_cons, execProg_append, trainBatch_exec]
    simp [ih, lossSeq, add_assoc]

theorem trainSeg_testLoss (ops : Ops P O B) (tL vL : List B) (bs : List B) :
    ∀ s : MState P O B,
    (execProg ops tL vL s (bs.flatMap trainBatchProg)).testLoss = s.testLoss := by
  induction bs with
  | nil => intro s; rfl
  | cons b t ih =>
    intro s
    rw [List.flatMap_cons, execProg_append, trainBatch_exec]
    simp [ih]

theorem trainSeg_accuracy (ops : Ops P O B) (tL vL : List B) (bs : List B) :
    ∀ s : MState P O B,
    (execProg ops tL vL s (bs.flatMap trainBatchProg)).accuracy = s.accuracy := by
  induction bs with
  | nil => intro s; rfl
  | cons b t ih =>
    intro s
    rw [List.flatMap_cons, execProg_append, trainBatch_exec]
    simp [ih]

theorem trainSeg_printed (ops : Ops P O B) (tL vL : List B) (bs : List B) :
    ∀ s : MState P O B,
    (execProg ops tL vL s (bs.flatMap trainBatchProg)).printed = s.printed := by
  induction bs with
  | nil => intro s; rfl
  | cons b t ih =>
    intro s
    rw [List.flatMap_cons, execProg_append, trainBatch_exec]
    simp [ih]

theorem trainSeg_plotted (ops : Ops P O B) (tL vL : List B) (bs : List B) :
    ∀ s : MState P O B,
    (execProg ops tL vL s (bs.flatMap trainBatchProg)).plotted = s.plotted := by
  induction bs with
  | nil => intro s; rfl
  | cons b t ih =>
    intro s
    rw [List.flatMap_cons, execProg_append, trainBatch_exec]
    simp [ih]

theorem trainSeg_fwdLog (ops : Ops P O B) (tL vL : List B) (bs : List B) :
    ∀ s : MState P O B,
    (execProg ops tL vL s (bs.flatMap trainBatchProg)).fwdLog
      = s.fwdLog ++ bs.map (fun _ => (s.mode, false)) := by
  induction bs with
  | nil => intro s; simp [execProg]
  | cons b t ih =>
    intro s
    rw [List.flatMap_cons, execProg_append, trainBatch_exec]
    simp [ih, List.append_assoc]

theorem valSeg_params (ops : Ops P O B) (tL vL : List B) (bs : List B) :
    ∀ s : MState P O B,
    (execProg ops tL vL s (bs.flatMap valBatchProg)).params = s.params := by
  induction bs with
  | nil => intro s; rfl
  | cons b t ih =>
    intro s
    rw [List.flatMap_cons, execProg_append, valBatch_exec]
    simp [ih]

theorem valSeg_mode (ops : Ops P O B) (tL vL : List B) (bs : List B) :
    ∀ s : MState P O B,
    (execProg ops tL vL s (bs.flatMap valBatchProg)).mode = s.mode := by
  induction bs with
  | nil => intro s; rfl
  | cons b t ih =>
    intro s
    rw [List.flatMap_cons, execProg_append, valBatch_exec]
    simp [ih]

theorem valSeg_running (ops : Ops P O B) (tL vL : List B) (bs : List B) :
    ∀ s : MState P O B,
    (execProg ops tL vL s (bs.flatMap valBatchProg)).runningLoss = s.runningLoss := by
  induction bs with
  | nil => intro s; rfl
  | cons b t ih =>
    intro s
    rw [List.flatMap_cons, execProg_append, valBatch_exec]
    simp [ih]

theorem valSeg_testLoss (ops : Ops P O B) (tL vL : List B) (bs : List B) :
    ∀ s : MState P O B,
    (execProg ops tL vL s (bs.flatMap valBatchProg)).testLoss
      = s.testLoss + (bs.map fun b => ops.nllLoss (ops.fwd s.params s.mode b) b).sum := by
  induction bs with
  | nil => intro s; simp [execProg]
  | cons b t ih =>
    intro s
    rw [List.flatMap_cons, execProg_append, valBatch_exec]
    simp [ih, add_assoc]

theorem valSeg_accuracy (ops : Ops P O B) (tL vL : List B) (bs : List B) :
    ∀ s : MState P O B,
    (execProg ops tL vL s (bs.flatMap valBatchProg)).accuracy
      = s.accuracy + (bs.map fun b => ops.accOf (ops.fwd s.params s.mode b) b).sum := by
  induction bs with
  | nil => intro s; simp [execProg]
  | cons b t ih =>
    intro s
    rw [List.flatMap_cons, execProg_append, valBatch_exec]
    simp [ih, add_assoc]

theorem valSeg_printed (ops : Ops P O B) (tL vL : List B) (bs : List B) :
    ∀ s : MState P O B,
    (execProg ops tL vL s (bs.flatMap valBatchProg)).printed = s.printed := by
  induction bs with
  | nil => intro s; rfl
  | cons b t ih =>
    intro s
    rw [List.flatMap_cons, execProg_append, valBatch_exec]
    simp [ih]

theorem valSeg_plotted (ops : Ops P O B) (tL vL : List B) (bs : List B) :
    ∀ s : MState P O B,
    (execProg ops tL vL s (bs.flatMap valBatchProg)).plotted = s.plotted := by
  induction bs with
  | nil => intro s; rfl
  | cons b t ih =>
    intro s
    rw [List.flatMap_cons, execProg_append, valBatch_exec]
    simp [ih]

theorem valSeg_fwdLog (ops : Ops P O B) (tL vL : List B) (bs : List B) :
    ∀ s : MState P O B,
    (execProg ops tL vL s (bs.flatMap valBatchProg)).fwdLog
      = s.fwdLog ++ bs.map (fun _ => (s.mode, true)) := by
  induction bs with
  | nil => intro s; simp [execProg]
  | cons b t ih =>
    intro s
    rw [List.flatMap_cons, execProg_append, valBatch_exec]
    simp [ih, List.append_assoc]

theorem valSegD_params (ops : Ops P O B) (tL vL : List B) (bs : List B) :
    ∀ s : MState P O B,
    (execProg ops tL vL s (bs.flatMap valBatchProgD)).params = s.params := by
  induction bs with
  | nil => intro s; rfl
  | cons b t ih =>
    intro s
    rw [List.flatMap_cons, execProg_append, valBatchD_exec]
    simp [ih]

theorem valSegD_running (ops : Ops P O B) (tL vL : List B) (bs : List B) :
    ∀ s : MState P O B,
    (execProg ops tL vL s (bs.flatMap valBatchProgD)).runningLoss = s.runningLoss := by
  induction bs with
  | nil => intro s; rfl
  | cons b t ih =>
    intro s
    rw [List.flatMap_cons, execProg_append, valBatchD_exec]
    simp [ih]

theorem valSegD_testLoss (ops : Ops P O B) (tL vL : List B) (bs : List B) :
    ∀ s : MState P O B,
    (execProg ops tL vL s (bs.flatMap valBatchProgD)).testLoss
      = s.testLoss + (bs.map fun b => ops.nllLoss (ops.fwd s.params false b) b).sum := by
  induction bs with
  | nil => intro s; simp [execProg]
  | cons b t ih =>
    intro s
    rw [List.flatMap_cons, execProg_append, valBatchD_exec]
    simp [ih, add_assoc]

theorem valSegD_accuracy (ops : Ops P O B) (tL vL : List B) (bs : List B) :
    ∀ s : MState P O B,
    (execProg ops tL vL s (bs.flatMap valBatchProgD)).accuracy
      = s.accuracy + (bs.map fun b => ops.accOf (ops.fwd s.params false b) b).sum := by
  induction bs with
  | nil => intro s; simp [execProg]
  | cons b t ih =>
    intro s
    rw [List.flatMap_cons, execProg_append, valBatchD_exec]
    simp [ih, add_assoc]

theorem valSegD_printed (ops : Ops P O B) (tL vL : List B) (bs : List B) :
    ∀ s : MState P O B,
    (execProg ops tL vL s (bs.flatMap valBatchProgD)).printed = s.printed := by
  induction bs with
  | nil => intro s; rfl
  | cons b t ih =>
    intro s
    rw [List.flatMap_cons, execProg_append, valBatchD_exec]
    simp [ih]

theorem valSegD_plotted (ops : Ops P O B) (tL vL : List B) (bs : List B) :
    ∀ s : MState P O B,
    (execProg ops tL vL s (bs.flatMap valBatchProgD)).plotted = s.plotted := by
  induction bs with
  | nil => intro s; rfl
  | cons b t ih =>
    intro s
    rw [List.flatMap_cons, execProg_append, valBatchD_exec]
    simp [ih]

theorem valSegD_fwdLog (ops : Ops P O B) (tL vL : List B) (bs : List B) :
    ∀ s : MState P O B,
    (execProg ops tL vL s (bs.flatMap valBatchProgD)).fwdLog
      = s.fwdLog ++ bs.map (fun _ => (false, true)) := by
  induction bs with
  | nil => intro s; simp [execProg]
  | cons b t ih =>
    intro s
    rw [List.flatMap_cons, execProg_append, valBatchD_exec]
    simp [ih, List.append_assoc]

theorem epoch14_params (ops : Ops P O B) (tL vL : List B) (s : MState P O B) :
    (execProg ops tL vL s (epochProg tL vL)).params = stepParams ops tL s.params := by
  simp only [epochProg, execProg_append, execProg_singleton, exec]
  simp [valSeg_params, trainSeg_params, stepParams]

theorem epoch14_mode (ops : Ops P O B) (tL vL : List B) (s : MState P O B) :
    (execProg ops tL vL s (epochProg tL vL)).mode = s.mode := by
  simp only [epochProg, execProg_append, execProg_singleton, exec]
  simp [valSeg_mode, trainSeg_mode]

theorem epoch14_plotted (ops : Ops P O B) (tL vL : List B) (s : MState P O B) :
    (execProg ops tL vL s (epochProg tL vL)).plotted = s.plotted := by
  simp only [epochProg, execProg_append, execProg_singleton, exec]
  simp [valSeg_plotted, trainSeg_plotted]

theorem epoch14_fwdLog (ops : Ops P O B) (tL vL : List B) (s : MState P O B) :
    (execProg ops tL vL s (epochProg tL vL)).fwdLog
      = s.fwdLog ++ tL.map (fun _ => (s.mode, false)) ++ vL.map (fun _ => (s.mode, true)) := by
  simp only [epochProg, execProg_append, execProg_singleton, exec]
  simp [valSeg_fwdLog, trainSeg_fwdLog, trainSeg_mode, List.append_assoc]

theorem epoch14_printed (ops : Ops P O B) (tL vL : List B) (s : MState P O B) :
    (execProg ops tL vL s (epochProg tL vL)).printed
      = s.printed ++ [epochTriple ops tL vL s.mode s.params] := by
  simp only [epochProg, execProg_append, execProg_singleton, exec]
  simp [valSeg_printed, trainSeg_printed, valSeg_running, trainSeg_running,
    valSeg_testLoss, valSeg_accuracy, valSeg_params, valSeg_mode,
    trainSeg_params, trainSeg_mode, epochTriple, stepParams]

theorem epoch18_params (ops : Ops P O B) (tL vL : List B) (s : MState P O B) :
    (execProg ops tL vL s (epochProgD tL vL)).params = stepParams ops tL s.params := by
  simp only [epochProgD, execProg_append, execProg_cons, execProg_singleton,
    execProg_nil, exec]
  simp [valSegD_params, trainSeg_params, stepParams]

theorem epoch18_mode (ops : Ops P O B) (tL vL : List B) (s : MState P O B) :
    (execProg ops tL vL s (epochProgD tL vL)).mode = true := by
  simp only [epochProgD, execProg_append, execProg_cons, execProg_singleton,
    execProg_nil, exec]

theorem epoch18_plotted (ops : Ops P O B) (tL vL : List B) (s : MState P O B) :
    (execProg ops tL vL s (epochProgD tL vL)).plotted = s.plotted := by
  simp only [epochProgD, execProg_append, execProg_cons, execProg_singleton,
    execProg_nil, exec]
  simp [valSegD_plotted, trainSeg_plotted]

theorem epoch18_fwdLog (ops : Ops P O B) (tL vL : List B) (s : MState P O B) :
    (execProg ops tL vL s (epochProgD tL vL)).fwdLog
      = s.fwdLog ++ (tL.map (fun _ => (s.mode, false)) ++ vL.map (fun _ => (false, true))) := by
  simp only [epochProgD, execProg_append, execProg_cons, execProg_singleton,
    execProg_nil, exec]
  simp [valSegD_fwdLog, trainSeg_fwdLog, trainSeg_mode, List.append_assoc]

theorem epoch18_printed (ops : Ops P O B) (tL vL : List B) (s : MState P O B) :
    (execProg ops tL vL s (epochProgD tL vL)).printed
      = s.printed ++ [epochTripleD ops tL vL s.mode s.params] := by
  simp only [epochProgD, execProg_append, execProg_cons, execProg_singleton,
    execProg_nil, exec]
  simp [valSegD_printed, trainSeg_printed, valSegD_running, trainSeg_running,
    valSegD_testLoss, valSegD_accuracy, valSegD_params,
    trainSeg_params, trainSeg_mode, epochTripleD, stepParams]

theorem mem_repList {α : Type} (a : α) (l : List α) :
    ∀ n : ℕ, a ∈ repList l n → a ∈ l := by
  intro n
  induction n with
  | zero => intro h; exact absurd h (List.not_mem_nil a)
  | succ n ih =>
    intro h
    rw [repList, List.mem_append] at h
    rcases h with h | h
    · exact h
    · exact ih h

theorem run14_exec (ops : Ops P O B) (tL vL : List B) :
    ∀ (n : ℕ) (s : MState P O B),
    (execProg ops tL vL s (repList (epochProg tL vL) n)).printed
        = s.printed ++ (List.range n).map
            (fun e => epochTriple ops tL vL s.mode (paramsAfterEpochs ops tL s.params e))
    ∧ (execProg ops tL vL s (repList (epochProg tL vL) n)).params
        = paramsAfterEpochs ops tL s.params n
    ∧ (execProg ops tL vL s (repList (epochProg tL vL) n)).mode = s.mode
    ∧ (execProg ops tL vL s (repList (epochProg tL vL) n)).plotted = s.plotted := by
  intro n
  induction n with
  | zero => intro s; simp [repList, execProg, paramsAfterEpochs]
  | succ n ih =>
    intro s
    rw [repList, execProg_append]
    obtain ⟨ihp, ihq, ihm, ihl⟩ := ih (execProg ops tL vL s (epochProg tL vL))
    refine ⟨?_, ?_, ?_, ?_⟩
    · rw [ihp, epoch14_printed, epoch14_mode, epoch14_params]
      rw [List.range_succ_eq_map, List.map_cons, List.map_map, List.append_assoc]
      rfl
    · rw [ihq, epoch14_params]
      rfl
    · rw [ihm, epoch14_mode]
    · rw [ihl, epoch14_plotted]

theorem run18_exec (ops : Ops P O B) (tL vL : List B) :
    ∀ (n : ℕ) (s : MState P O B), s.mode = true →
    (execProg ops tL vL s (repList (epochProgD tL vL) n)).printed
        = s.printed ++ (List.range n).map
            (fun e => epochTripleD ops tL vL true (paramsAfterEpochs ops tL s.params e))
    ∧ (execProg ops tL vL s (repList (epochProgD tL vL) n)).params
        = paramsAfterEpochs ops tL s.params n
    ∧ (execProg ops tL vL s (repList (epochProgD tL vL) n)).mode = true
    ∧ (execProg ops tL vL s (repList (epochProgD tL vL) n)).plotted = s.plotted
    ∧ (execProg ops tL vL s (repList (epochProgD tL vL) n)).fwdLog
        = s.fwdLog ++ repList (epochLog tL vL) n := by
  intro n
  induction n with
  | zero => intro s hm; simp [repList, execProg, paramsAfterEpochs, hm]
  | succ n ih =>
    intro s hm
    rw [repList, execProg_append]
    obtain ⟨ihp, ihq, ihm, ihl, ihf⟩ :=
      ih (execProg ops tL vL s (epochProgD tL vL)) (epoch18_mode ops tL vL s)
    refine ⟨?_, ?_, ?_, ?_, ?_⟩
    · rw [ihp, epoch18_printed, epoch18_params, hm]
      rw [List.range_succ_eq_map, List.map_cons, List.map_map, List.append_assoc]
      rfl
    · rw [ihq, epoch18_params]
      rfl
    · exact ihm
    · rw [ihl, epoch18_plotted]
    · rw [ihf, epoch18_fwdLog, hm]
      rw [show repList (epochLog tL vL) (n + 1) = epochLog tL vL ++ repList (epochLog tL vL) n from rfl]
      simp [epochLog, List.append_assoc]

theorem cell20_exec (ops : Ops P O B) (tL vL : List B) (s : MState P O B) (b0 : B) :
    (execProg ops tL vL s (cell20Prog b0)).plotted = s.plotted + 1 := by
  simp [cell20Prog, execProg, exec]

/-- Claim C1: in each training epoch the validation loop runs after all
training mini-batches, entirely inside torch.no_grad(), performs only
forward passes over the test loader, adds each batch's NLL loss to the
running test loss and each batch's mean top-1 accuracy to the running
accuracy, and never executes loss.backward() or optimizer.step().  Stated
for the validation loops of both cell 14 and cell 18. -/
theorem claim_C1 {P O B : Type} (ops : Ops P O B) (tL vL : List B) (s : MState P O B) :
    epochProg tL vL = [Instr.resetEpoch] ++ tL.flatMap trainBatchProg
        ++ [Instr.resetVal] ++ vL.flatMap valBatchProg ++ [Instr.printMetrics]
    ∧ epochProgD tL vL = [Instr.resetEpoch] ++ tL.flatMap trainBatchProg
        ++ [Instr.resetVal, Instr.evalMode] ++ vL.flatMap valBatchProgD
        ++ [Instr.trainMode, Instr.printMetrics]
    ∧ Instr.backward ∉ vL.flatMap valBatchProg
    ∧ Instr.stepI ∉ vL.flatMap valBatchProg
    ∧ Instr.backward ∉ vL.flatMap valBatchProgD
    ∧ Instr.stepI ∉ vL.flatMap valBatchProgD
    ∧ (∀ (b : B) (ng : Bool), Instr.forwardI b ng ∈ vL.flatMap valBatchProg → ng = true)
    ∧ (∀ (b : B) (ng : Bool), Instr.forwardI b ng ∈ vL.flatMap valBatchProgD → ng = true)
    ∧ (execProg ops tL vL s (vL.flatMap valBatchProg)).testLoss
        = s.testLoss + (vL.map fun b => ops.nllLoss (ops.fwd s.params s.mode b) b).sum
    ∧ (execProg ops tL vL s (vL.flatMap valBatchProg)).accuracy
        = s.accuracy + (vL.map fun b => ops.accOf (ops.fwd s.params s.mode b) b).sum
    ∧ (execProg ops tL vL s (vL.flatMap valBatchProgD)).testLoss
        = s.testLoss + (vL.map fun b => ops.nllLoss (ops.fwd s.params false b) b).sum
    ∧ (execProg ops tL vL s (vL.flatMap valBatchProgD)).accuracy
        = s.accuracy + (vL.map fun b => ops.accOf (ops.fwd s.params false b) b).sum := by
  refine ⟨rfl, rfl, ?_, ?_, ?_, ?_, ?_, ?_, ?_, ?_, ?_, ?_⟩
  · simp [valBatchProg, List.mem_flatMap]
  · simp [valBatchProg, List.mem_flatMap]
  · simp [valBatchProgD, valBatchProg, List.mem_flatMap]
  · simp [valBatchProgD, valBatchProg, List.mem_flatMap]
  · intro b ng h
    rw [List.mem_flatMap] at h
    obtain ⟨b2, _, hmem⟩ := h
    simp [valBatchProg] at hmem
    exact hmem.2
  · intro b ng h
    rw [List.mem_flatMap] at h
    obtain ⟨b2, _, hmem⟩ := h
    simp [valBatchProgD, valBatchProg] at hmem
    exact hmem.2
  · exact valSeg_testLoss ops tL vL vL s
  · exact valSeg_accuracy ops tL vL vL s
  · exact valSegD_testLoss ops tL vL vL s
  · exact valSegD_accuracy ops tL vL vL s

/-- Claim C6: for every mini-batch of every one of the 30 epochs, the
training loop performs, in order, optimizer.zero_grad(), the forward pass,
the NLL loss computation, loss.backward(), optimizer.step(), and then adds
loss.item() to the epoch's running loss: the per-batch program is exactly
that instruction sequence, executing it applies one optimizer step to the
parameters and adds the batch's loss (taken at the pre-step parameters) to
the running loss, the whole loop accumulates the per-batch losses at the
successively updated parameters, and the run repeats the epoch program
epochs = 30 times. -/
theorem claim_C6 {P O B : Type} (ops : Ops P O B) (tL vL : List B)
    (s : MState P O B) (b : B) (bs : List B) (b0 : B) :
    epochs = 30
    ∧ trainBatchProg b = [Instr.zeroGrad, Instr.forwardI b false, Instr.lossI b,
        Instr.backward, Instr.stepI, Instr.accumRunning]
    ∧ (execProg ops tL vL s (trainBatchProg b)).params = ops.stepF s.params b
    ∧ (execProg ops tL vL s (trainBatchProg b)).runningLoss
        = s.runningLoss + ops.nllLoss (ops.fwd s.params s.mode b) b
    ∧ (execProg ops tL vL s (bs.flatMap trainBatchProg)).runningLoss
        = s.runningLoss + (lossSeq ops s.mode s.params bs).sum
    ∧ (execProg ops tL vL s (bs.flatMap trainBatchProg)).params = bs.foldl ops.stepF s.params
    ∧ notebookProg tL vL b0
        = repList (epochProg tL vL) 30 ++ repList (epochProgD tL vL) 30 ++ cell20Prog b0 := by
  refine ⟨rfl, rfl, ?_, ?_, ?_, ?_, rfl⟩
  · rw [trainBatch_exec]
  · rw [trainBatch_exec]
  · exact trainSeg_running ops tL vL bs s
  · exact trainSeg_params ops tL vL bs s

/-- Claim C8: model parameters are initialized at construction (the initial
state's parameters are exactly the freshly constructed ones), are mutated by
no instruction other than optimizer.step(), and the notebook's program
contains no save or load operation. -/
theorem claim_C8 {P O B : Type} (ops : Ops P O B) (tL vL : List B) (p : P)
    (b0 : B) (i : Instr B) (s : MState P O B) (h : i ≠ Instr.stepI) :
    (exec ops tL vL s i).params = s.params
    ∧ Instr.saveI ∉ notebookProg tL vL b0
    ∧ Instr.loadI ∉ notebookProg tL vL b0
    ∧ (initState p : MState P O B).params = p := by
  refine ⟨?_, ?_, ?_, rfl⟩
  · cases i <;> first | rfl | exact absurd rfl h
  · intro hmem
    rw [notebookProg, List.mem_append, List.mem_append] at hmem
    rcases hmem with (hmem | hmem) | hmem
    · have := mem_repList _ _ _ hmem
      simp [epochProg, trainBatchProg, valBatchProg, List.mem_flatMap] at this
    · have := mem_repList _ _ _ hmem
      simp [epochProgD, trainBatchProg, valBatchProgD, valBatchProg,
        List.mem_flatMap] at this
    · simp [cell20Prog] at hmem
  · intro hmem
    rw [notebookProg, List.mem_append, List.mem_append] at hmem
    rcases hmem with (hmem | hmem) | hmem
    · have := mem_repList _ _ _ hmem
      simp [epochProg, trainBatchProg, valBatchProg, List.mem_flatMap] at this
    · have := mem_repList _ _ _ hmem
      simp [epochProgD, trainBatchProg, valBatchProgD, valBatchProg,
        List.mem_flatMap] at this
    · simp [cell20Prog] at hmem

/-- Claim C10: the validation pass leaves every model parameter unchanged:
executing the whole post-training tail of an epoch (reset of the validation
accumulators, the validation loop, and the print; for cell 18 also the
eval/train mode switches) returns the same parameters, optimizer.step()
occurs nowhere in that tail, and no single instruction of either validation
loop writes the parameters. -/
theorem claim_C10 {P O B : Type} (ops : Ops P O B) (tL vL : List B) (s : MState P O B) :
    (execProg ops tL vL s
        ([Instr.resetVal] ++ vL.flatMap valBatchProg ++ [Instr.printMetrics])).params
      = s.params
    ∧ (execProg ops tL vL s
        ([Instr.resetVal, Instr.evalMode] ++ vL.flatMap valBatchProgD
          ++ [Instr.trainMode, Instr.printMetrics])).params = s.params
    ∧ Instr.stepI ∉ ([Instr.resetVal] ++ vL.flatMap valBatchProg ++ [Instr.printMetrics])
    ∧ Instr.stepI ∉ ([Instr.resetVal, Instr.evalMode] ++ vL.flatMap valBatchProgD
          ++ [Instr.trainMode, Instr.printMetrics])
    ∧ (∀ i ∈ vL.flatMap valBatchProg, ∀ s2 : MState P O B,
        (exec ops tL vL s2 i).params = s2.params)
    ∧ (∀ i ∈ vL.flatMap valBatchProgD, ∀ s2 : MState P O B,
        (exec ops tL vL s2 i).params = s2.params) := by
  refine ⟨?_, ?_, ?_, ?_, ?_, ?_⟩
  · simp only [execProg_append, execProg_singleton, exec]
    simp [valSeg_params]
  · simp only [execProg_append, execProg_cons, execProg_singleton, execProg_nil, exec]
    simp [valSegD_params]
  · simp [valBatchProg, List.mem_flatMap]
  · simp [valBatchProgD, valBatchProg, List.mem_flatMap]
  · intro i hi s2
    rw [List.mem_flatMap] at hi
    obtain ⟨b2, _, hmem⟩ := hi
    simp [valBatchProg] at hmem
    rcases hmem with rfl | rfl | rfl | rfl <;> rfl
  · intro i hi s2
    rw [List.mem_flatMap] at hi
    obtain ⟨b2, _, hmem⟩ := hi
    simp [valBatchProgD, valBatchProg] at hmem
    rcases hmem with rfl | rfl | rfl | rfl | rfl <;> rfl

/-- Claim C2: running any number of cell-18 epochs from the freshly
constructed model (training flag True), every forward pass that runs with
gradients enabled (a training pass) sees the model in train mode and every
forward pass under torch.no_grad() (a validation pass) sees it in eval mode;
after each epoch the model is back in train mode; and in eval mode the
dropout layer passes its input through unchanged, exactly as dropout with
drop probability 0 does. -/
theorem claim_C2 {P O B : Type} (ops : Ops P O B) (tL vL : List B) (p0 : P)
    (n : ℕ) (q : ℚ) (mask : List Bool) (xs : List ℚ) :
    (∀ pr ∈ (execProg ops tL vL (initState p0) (repList (epochProgD tL vL) n)).fwdLog,
        pr.1 = !pr.2)
    ∧ (execProg ops tL vL (initState p0) (repList (epochProgD tL vL) n)).mode = true
    ∧ dropoutVec q false mask xs = xs
    ∧ dropoutVec 0 true (xs.map fun _ => false) xs = xs := by
  obtain ⟨hp, hq, hm, hl, hf⟩ := run18_exec ops tL vL n (initState p0) rfl
  refine ⟨?_, hm, ?_, ?_⟩
  · intro pr hpr
    rw [hf] at hpr
    simp only [initState, List.nil_append] at hpr
    have hmem := mem_repList pr (epochLog tL vL) n hpr
    rw [epochLog, List.mem_append] at hmem
    rcases hmem with hmem | hmem
    · obtain ⟨a, _, heq⟩ := List.mem_map.mp hmem
      rw [← heq]
      rfl
    · obtain ⟨a, _, heq⟩ := List.mem_map.mp hmem
      rw [← heq]
      rfl
  · simp [dropoutVec]
  · rw [dropoutVec]
    simp only [if_pos rfl]
    induction xs with
    | nil => rfl
    | cons x t ih => simp_all

/-- Claim C7: after each of the 30 epochs the program prints exactly the
three per-epoch metrics: training loss = accumulated mini-batch loss over
the number of training batches, test loss = accumulated test loss over the
number of test batches, test accuracy = accumulated per-batch accuracy over
the number of test batches (characterized for both the cell-14 and the
cell-18 run); and after training the notebook renders exactly one plot,
which is its final action. -/
theorem claim_C7 {P O B : Type} (ops : Ops P O B) (tL vL : List B) (p0 p1 : P) (b0 : B) :
    epochs = 30
    ∧ (execProg ops tL vL (initState p0) (repList (epochProg tL vL) epochs)).printed
        = (List.range 30).map
            (fun e => epochTriple ops tL vL true (paramsAfterEpochs ops tL p0 e))
    ∧ (execProg ops tL vL (initState p1) (repList (epochProgD tL vL) epochs)).printed
        = (List.range 30).map
            (fun e => epochTripleD ops tL vL true (paramsAfterEpochs ops tL p1 e))
    ∧ (execProg ops tL vL (initState p0) (notebookProg tL vL b0)).plotted = 1
    ∧ notebookProg tL vL b0
        = (repList (epochProg tL vL) epochs ++ repList (epochProgD tL vL) epochs
            ++ [Instr.evalMode, Instr.forwardI b0 true]) ++ [Instr.plotI] := by
  refine ⟨rfl, ?_, ?_, ?_, ?_⟩
  · obtain ⟨hp, _, _, _⟩ := run14_exec ops tL vL epochs (initState p0)
    rw [hp]
    simp [initState, epochs]
  · obtain ⟨hp, _, _, _, _⟩ := run18_exec ops tL vL epochs (initState p1) rfl
    rw [hp]
    simp [initState, epochs]
  · rw [notebookProg, execProg_append, execProg_append, cell20_exec]
    obtain ⟨_, _, hm14, hl14⟩ := run14_exec ops tL vL epochs (initState p0)
    obtain ⟨_, _, _, hl18, _⟩ :=
      run18_exec ops tL vL epochs (execProg ops tL vL (initState p0) (repList (epochProg tL vL) epochs)) hm14
    rw [hl18, hl14]
    rfl
  · simp [notebookProg, cell20Prog]

end Machine

theorem mkLinear_apply_length (init : ℕ → ℕ → ℚ) (inF outF : ℕ) (x : List ℚ) :
    ((mkLinear init inF outF).apply x).length = outF := by
  simp [mkLinear, Linear.apply, List.length_zipWith]

theorem log_softmax_length (lse : List ℚ → ℚ) (xs : List ℚ) :
    (log_softmax lse xs).length = xs.length := by
  simp [log_softmax]

theorem reluVec_length (xs : List ℚ) : (reluVec xs).length = xs.length := by
  simp [reluVec]

theorem forward1_length (rnd : ℕ → ℕ → ℕ → ℚ) (lse : List ℚ → ℚ) (img : List (List ℚ)) :
    ((mkClassifier rnd).forward1 lse img).length = 10 := by
  simp [Classifier.forward1, mkClassifier, log_softmax_length, mkLinear_apply_length]

theorem flatten_length_784 (img : List (List ℚ)) (h1 : img.length = 28)
    (h2 : ∀ r ∈ img, r.length = 28) : img.flatten.length = 784 := by
  rw [List.length_flatten]
  have h3 : img.map List.length = List.replicate 28 28 := by
    rw [List.eq_replicate_iff]
    constructor
    · simpa using h1
    · intro b hb
      obtain ⟨r, hr, hrb⟩ := List.mem_map.mp hb
      rw [← hrb]
      exact h2 r hr
  rw [h3]
  simp [List.sum_replicate]

/-- Claim C3: Classifier.forward flattens each 28-by-28 image of a batch to
a 784-entry vector and pushes it through the layers 784→256, 256→128,
128→64 and 64→10, ReLU after each of the first three and log-softmax after
the fourth, so the output for a batch of N images has shape (N, 10). -/
theorem claim_C3 (rnd : ℕ → ℕ → ℕ → ℚ) (lse : List ℚ → ℚ)
    (batch : List (List (List ℚ)))
    (h : ∀ img ∈ batch, img.length = 28 ∧ ∀ row ∈ img, row.length = 28) :
    (∀ img ∈ batch, img.flatten.length = 784)
    ∧ ((mkClassifier rnd).forward lse batch).length = batch.length
    ∧ (∀ out ∈ (mkClassifier rnd).forward lse batch, out.length = 10)
    ∧ (mkClassifier rnd).fc1.weight.length = 256
    ∧ (∀ r ∈ (mkClassifier rnd).fc1.weight, r.length = 784)
    ∧ (mkClassifier rnd).fc2.weight.length = 128
    ∧ (∀ r ∈ (mkClassifier rnd).fc2.weight, r.length = 256)
    ∧ (mkClassifier rnd).fc3.weight.length = 64
    ∧ (∀ r ∈ (mkClassifier rnd).fc3.weight, r.length = 128)
    ∧ (mkClassifier rnd).fc4.weight.length = 10
    ∧ (∀ r ∈ (mkClassifier rnd).fc4.weight, r.length = 64)
    ∧ (∀ img : List (List ℚ), (mkClassifier rnd).forward1 lse img
        = log_softmax lse ((mkClassifier rnd).fc4.apply (reluVec
            ((mkClassifier rnd).fc3.apply (reluVec ((mkClassifier rnd).fc2.apply
              (reluVec ((mkClassifier rnd).fc1.apply img.flatten)))))))) := by
  refine ⟨?_, ?_, ?_, ?_, ?_, ?_, ?_, ?_, ?_, ?_, ?_, fun img => rfl⟩
  · intro img himg
    exact flatten_length_784 img (h img himg).1 (h img himg).2
  · simp [Classifier.forward]
  · intro out hout
    obtain ⟨img, _, himg⟩ := List.mem_map.mp hout
    rw [← himg]
    exact forward1_length rnd lse img
  · simp [mkClassifier, mkLinear]
  · intro r hr
    simp [mkClassifier, mkLinear] at hr
    obtain ⟨i, _, hri⟩ := hr
    rw [← hri]
    simp
  · simp [mkClassifier, mkLinear]
  · intro r hr
    simp [mkClassifier, mkLinear] at hr
    obtain ⟨i, _, hri⟩ := hr
    rw [← hri]
    simp
  · simp [mkClassifier, mkLinear]
  · intro r hr
    simp [mkClassifier, mkLinear] at hr
    obtain ⟨i, _, hri⟩ := hr
    rw [← hri]
    simp
  · simp [mkClassifier, mkLinear]
  · intro r hr
    simp [mkClassifier, mkLinear] at hr
    obtain ⟨i, _, hri⟩ := hr
    rw [← hri]
    simp

/-- Claim C4: in the dropout variant the dropout module has drop
probability 0.2, it is applied to the ReLU output of each of the three
hidden layers and not to the output layer (the forward pass coincides with
the spec's description written as dropoutForwardSpec), and with dropout
inactive (eval mode) the forward pass is exactly the plain Classifier
forward pass on the same weights. -/
theorem claim_C4 (rnd : ℕ → ℕ → ℕ → ℚ) (lse : List ℚ → ℚ) (training : Bool)
    (m1 m2 m3 : List Bool) (img : List (List ℚ)) :
    (mkClassifierD rnd).dropout = 1 / 5
    ∧ (mkClassifierD rnd).forward1 lse training m1 m2 m3 img
        = dropoutForwardSpec lse (mkClassifierD rnd).fc1 (mkClassifierD rnd).fc2
            (mkClassifierD rnd).fc3 (mkClassifierD rnd).fc4 training m1 m2 m3 img
    ∧ (mkClassifierD rnd).forward1 lse false m1 m2 m3 img
        = (mkClassifier rnd).forward1 lse img := by
  have h210 : (2 : ℚ) / 10 = 1 / 5 := by norm_num
  refine ⟨rfl, ?_, ?_⟩
  · simp [ClassifierD.forward1, dropoutForwardSpec, mkClassifierD, h210]
  · simp [ClassifierD.forward1, Classifier.forward1, mkClassifierD, mkClassifier,
      dropoutVec]

/-- Claim C5: the equals tensor produced by the == comparison is a uint8
ByteTensor; calling torch.mean on it directly raises the framework's
RuntimeError; the notebook's loops instead convert it to a FloatTensor
first, and that expression succeeds, returning the batch accuracy, so no
error is raised or caught in the loops. -/
theorem claim_C5 (ps : List (List ℚ)) (labels : List ℕ) :
    (equalsTensor ps labels).dtype = DType.uint8
    ∧ torch_mean (equalsTensor ps labels)
        = Except.error ("mean is not implemented for type torch.ByteTensor")
    ∧ (torch_mean (equalsTensor ps labels)).toOption = none
    ∧ accuracyExpr ps labels = Except.ok (accuracyValue ps labels)
    ∧ (accuracyExpr ps labels).toOption = some (accuracyValue ps labels) := by
  exact ⟨rfl, rfl, rfl, rfl, rfl⟩

theorem argmaxIdx_spec : ∀ xs : List ℚ, xs ≠ [] →
    argmaxIdx xs < xs.length ∧ ∀ v ∈ xs, v ≤ xs.getD (argmaxIdx xs) 0 := by
  intro xs
  induction xs with
  | nil => intro h; exact absurd rfl h
  | cons x t ih =>
    intro _
    cases t with
    | nil =>
      refine ⟨by simp [argmaxIdx], ?_⟩
      intro v hv
      rw [List.mem_singleton] at hv
      subst hv
      simp [argmaxIdx]
    | cons y ys =>
      obtain ⟨ih1, ih2⟩ := ih (by simp)
      rw [show argmaxIdx (x :: y :: ys)
            = if (y :: ys).getD (argmaxIdx (y :: ys)) 0 ≤ x then 0
              else argmaxIdx (y :: ys) + 1 from rfl]
      by_cases hc : (y :: ys).getD (argmaxIdx (y :: ys)) 0 ≤ x
      · rw [if_pos hc]
        refine ⟨by simp, ?_⟩
        intro v hv
        rw [List.getD_cons_zero]
        rcases List.mem_cons.mp hv with rfl | hv2
        · exact le_refl v
        · exact le_trans (ih2 v hv2) hc
      · rw [if_neg hc]
        refine ⟨by simpa using Nat.succ_lt_succ ih1, ?_⟩
        intro v hv
        rw [List.getD_cons_succ]
        rcases List.mem_cons.mp hv with rfl | hv2
        · exact le_of_lt (lt_of_not_le hc)
        · exact ih2 v hv2

theorem equalsReshaped_topk (ps : List (List ℚ)) :
    ∀ labels : List ℕ, equalsReshaped (topkIndices ps) labels
      = List.zipWith (fun row l => [decide (argmaxIdx row = l)]) ps labels := by
  induction ps with
  | nil => intro labels; rfl
  | cons r t ih =>
    intro labels
    cases labels with
    | nil => rfl
    | cons l ls =>
      rw [show topkIndices (r :: t) = [argmaxIdx r] :: topkIndices t from rfl]
      rw [show equalsReshaped ([argmaxIdx r] :: topkIndices t) (l :: ls)
            = ([argmaxIdx r].map fun c => decide (c = l))
                :: equalsReshaped (topkIndices t) ls from rfl]
      rw [ih ls]
      rfl

theorem zipWith_singleton_len {α β γ : Type} (f : α → β → γ) :
    ∀ (as : List α) (bs : List β),
    ∀ r ∈ List.zipWith (fun a b => [f a b]) as bs, r.length = 1 := by
  intro as
  induction as with
  | nil => intro bs r hr; simp at hr
  | cons a t ih =>
    intro bs r hr
    cases bs with
    | nil => simp at hr
    | cons b bs2 =>
      rw [List.zipWith_cons_cons, List.mem_cons] at hr
      rcases hr with rfl | hr
      · rfl
      · exact ih bs2 r hr

theorem boolData_sum_nonneg (bs : List Bool) : 0 ≤ (bs.map boolToByte).sum := by
  induction bs with
  | nil => simp
  | cons b t ih =>
    rw [List.map_cons, List.sum_cons]
    have hb : 0 ≤ boolToByte b := by cases b <;> simp [boolToByte]
    linarith

theorem boolData_sum_le (bs : List Bool) : (bs.map boolToByte).sum ≤ (bs.length : ℚ) := by
  induction bs with
  | nil => simp
  | cons b t ih =>
    rw [List.map_cons, List.sum_cons, List.length_cons]
    have hb : boolToByte b ≤ 1 := by cases b <;> simp [boolToByte]
    push_cast
    linarith

theorem accuracyValue_bounds (ps : List (List ℚ)) (labels : List ℕ) :
    0 ≤ accuracyValue ps labels ∧ accuracyValue ps labels ≤ 1 := by
  rw [accuracyValue]
  rw [show (equalsTensor ps labels).data
        = ((equalsReshaped (topkIndices ps) labels).flatten.map boolToByte) from rfl]
  constructor
  · apply div_nonneg (boolData_sum_nonneg _)
    positivity
  · apply div_le_one_of_le₀
    · rw [List.length_map]
      exact boolData_sum_le _
    · positivity

theorem mapZero_getD (ns : List ℕ) : ∀ i : ℕ, (ns.map fun _ => (0:ℕ)).getD i 0 = 0 := by
  induction ns with
  | nil => intro i; rfl
  | cons n t ih =>
    intro i
    cases i with
    | zero => rfl
    | succ j =>
      rw [List.map_cons, List.getD_cons_succ]
      exact ih j

theorem mapZero_sum (t : List ℕ) : (t.map fun _ => (0:ℕ)).sum = 0 := by
  induction t with
  | nil => rfl
  | cons a t2 ih =>
    rw [List.map_cons, List.sum_cons, ih]

theorem unitCs_length (ns : List ℕ) : ∀ j : ℕ, (unitCs ns j).length = ns.length := by
  induction ns with
  | nil => intro j; rfl
  | cons n t ih =>
    intro j
    cases j with
    | zero => simp [unitCs]
    | succ j2 => simp [unitCs, ih j2]

theorem unitCs_getD_le (ns : List ℕ) : ∀ j i : ℕ, (unitCs ns j).getD i 0 ≤ ns.getD i 0 := by
  induction ns with
  | nil => intro j i; exact le_refl _
  | cons n t ih =>
    intro j i
    cases j with
    | zero =>
      cases i with
      | zero => simp [unitCs]
      | succ i2 =>
        rw [show unitCs (n :: t) 0 = n :: t.map (fun _ => 0) from rfl,
          List.getD_cons_succ, List.getD_cons_succ, mapZero_getD]
        exact Nat.zero_le _
    | succ j2 =>
      cases i with
      | zero => simp [unitCs]
      | succ i2 =>
        rw [show unitCs (n :: t) (j2 + 1) = 0 :: unitCs t j2 from rfl,
          List.getD_cons_succ, List.getD_cons_succ]
        exact ih j2 i2

theorem unitCs_sum (ns : List ℕ) : ∀ j, j < ns.length → (unitCs ns j).sum = ns.getD j 0 := by
  induction ns with
  | nil => intro j hj; exact absurd hj (by simp)
  | cons n t ih =>
    intro j hj
    cases j with
    | zero => simp [unitCs, mapZero_sum]
    | succ j2 =>
      rw [show unitCs (n :: t) (j2 + 1) = 0 :: unitCs t j2 from rfl,
        List.sum_cons, List.getD_cons_succ, ih j2 (by simpa using hj)]
      simp

theorem zipRatio_mapZero (ns : List ℕ) :
    (List.zipWith (fun (c n : ℕ) => (c:ℚ)/(n:ℚ)) (ns.map fun _ => 0) ns).sum = 0 := by
  induction ns with
  | nil => rfl
  | cons n t ih =>
    rw [List.map_cons, List.zipWith_cons_cons, List.sum_cons, ih]
    simp

theorem zipRatio_unitCs (ns : List ℕ) (hpos : ∀ n ∈ ns, 0 < n) :
    ∀ j, j < ns.length →
    (List.zipWith (fun (c n : ℕ) => (c:ℚ)/(n:ℚ)) (unitCs ns j) ns).sum = 1 := by
  induction ns with
  | nil => intro j hj; exact absurd hj (by simp)
  | cons n t ih =>
    intro j hj
    cases j with
    | zero =>
      rw [show unitCs (n :: t) 0 = n :: t.map (fun _ => 0) from rfl,
        List.zipWith_cons_cons, List.sum_cons, zipRatio_mapZero]
      have hn : (n:ℚ) ≠ 0 :=
        Nat.cast_ne_zero.mpr (Nat.pos_iff_ne_zero.mp (hpos n (List.mem_cons_self n t)))
      rw [div_self hn, add_zero]
    | succ j2 =>
      rw [show unitCs (n :: t) (j2 + 1) = 0 :: unitCs t j2 from rfl,
        List.zipWith_cons_cons, List.sum_cons,
        ih (fun m hm => hpos m (List.mem_cons_of_mem n hm)) j2 (by simpa using hj)]
      simp

theorem zipRatio_const (m : ℕ) : ∀ cs ns : List ℕ, cs.length = ns.length →
    (∀ n ∈ ns, n = m) →
    List.zipWith (fun (c n : ℕ) => (c:ℚ)/(n:ℚ)) cs ns = cs.map fun c : ℕ => (c:ℚ)/(m:ℚ) := by
  intro cs
  induction cs with
  | nil =>
    intro ns h _
    cases ns with
    | nil => rfl
    | cons a t => simp at h
  | cons c t ih =>
    intro ns hlen hall
    cases ns with
    | nil => simp at hlen
    | cons n ns2 =>
      rw [List.zipWith_cons_cons, List.map_cons, hall n (List.mem_cons_self n ns2),
        ih ns2 (by simpa using hlen) (fun x hx => hall x (List.mem_cons_of_mem n hx))]

theorem sum_map_divQ (cs : List ℕ) (m : ℚ) :
    (cs.map fun c : ℕ => (c : ℚ) / m).sum = (cs.sum : ℚ) / m := by
  induction cs with
  | nil => simp
  | cons c t ih =>
    rw [List.map_cons, List.sum_cons, ih, List.sum_cons, Nat.cast_add, add_div]

theorem sum_const_list (ns : List ℕ) (m : ℕ) (h : ∀ n ∈ ns, n = m) :
    ns.sum = ns.length * m := by
  induction ns with
  | nil => simp
  | cons n t ih =>
    rw [List.sum_cons, List.length_cons, h n (List.mem_cons_self n t),
      ih (fun x hx => h x (List.mem_cons_of_mem n hx))]
    ring

/-- The unweighted mean of the per-batch accuracies is guaranteed to equal
the dataset-level accuracy (for every admissible assignment of per-batch
correct counts) exactly when every batch has the same size. -/
theorem unweightedMean_iff (ns : List ℕ) (hne : ns ≠ []) (hpos : ∀ n ∈ ns, 0 < n) :
    (∀ cs : List ℕ, cs.length = ns.length → (∀ i, cs.getD i 0 ≤ ns.getD i 0) →
        unweightedMean cs ns = datasetAcc cs ns)
    ↔ (∃ m, ∀ n ∈ ns, n = m) := by
  have hk : (0:ℚ) < (ns.length : ℚ) := by
    have h0 : 0 < ns.length := List.length_pos.mpr hne
    exact_mod_cast h0
  constructor
  · intro H
    have hS : (0:ℚ) < (ns.sum : ℚ) := by
      have h0 : 0 < ns.sum := List.sum_pos ns hpos hne
      exact_mod_cast h0
    have key : ∀ j, j < ns.length →
        (ns.sum : ℚ) = (ns.length : ℚ) * (ns.getD j 0 : ℚ) := by
      intro j hj
      have h1 := H (unitCs ns j) (unitCs_length ns j) (unitCs_getD_le ns j)
      rw [unweightedMean, datasetAcc, zipRatio_unitCs ns hpos j hj,
        unitCs_sum ns j hj] at h1
      rw [div_eq_div_iff (ne_of_gt hk) (ne_of_gt hS), one_mul] at h1
      rw [h1, mul_comm]
    refine ⟨ns.getD 0 0, ?_⟩
    intro n hn
    obtain ⟨⟨i, hi⟩, hget⟩ := List.mem_iff_get.mp hn
    have h0 := key 0 (List.length_pos.mpr hne)
    have hi2 := key i hi
    have heq : (ns.length:ℚ) * (ns.getD 0 0 : ℚ) = (ns.length:ℚ) * (ns.getD i 0 : ℚ) :=
      h0.symm.trans hi2
    have hgd : (ns.getD 0 0 : ℚ) = (ns.getD i 0 : ℚ) :=
      mul_left_cancel₀ (ne_of_gt hk) heq
    have hgd2 : ns.getD 0 0 = ns.getD i 0 := Nat.cast_injective hgd
    have hn2 : ns.getD i 0 = n := by
      rw [List.getD_eq_getElem ns 0 hi, ← hget]
      rfl
    rw [← hn2, ← hgd2]
  · rintro ⟨m, hm⟩
    intro cs hlen hbound
    have hmpos : 0 < m := by
      obtain ⟨n0, hn0⟩ := List.exists_mem_of_ne_nil ns hne
      have hp := hpos n0 hn0
      rw [hm n0 hn0] at hp
      exact hp
    rw [unweightedMean, datasetAcc, zipRatio_const m cs ns hlen hm, sum_map_divQ,
      sum_const_list ns m hm]
    push_cast
    rw [div_div, mul_comm]

/-- Claim C9: topk(1, dim=1) indices have shape (N, 1); comparing them with
the reshaped labels gives a shape (N, 1) equals tensor whose entry i is 1
exactly when the index of example i's largest predicted probability equals
its label (and that index really points at a maximal entry), while comparing
against the unreshaped labels broadcasts to an (N, N) result; each per-batch
accuracy lies in [0, 1]; and the reported unweighted mean of per-batch
accuracies is guaranteed to equal the dataset-level accuracy exactly when
every test batch has the same size. -/
theorem claim_C9 (ps : List (List ℚ)) (labels : List ℕ) (ns : List ℕ)
    (hlab : labels.length = ps.length) (hne : ns ≠ []) (hpos : ∀ n ∈ ns, 0 < n) :
    (topkIndices ps).length = ps.length
    ∧ (∀ r ∈ topkIndices ps, r.length = 1)
    ∧ (equalsReshaped (topkIndices ps) labels).length = ps.length
    ∧ (∀ r ∈ equalsReshaped (topkIndices ps) labels, r.length = 1)
    ∧ equalsReshaped (topkIndices ps) labels
        = List.zipWith (fun row l => [decide (argmaxIdx row = l)]) ps labels
    ∧ (∀ row ∈ ps, row ≠ [] →
        argmaxIdx row < row.length ∧ ∀ v ∈ row, v ≤ row.getD (argmaxIdx row) 0)
    ∧ (equalsBroadcast (topkIndices ps) labels).length = ps.length
    ∧ (∀ r ∈ equalsBroadcast (topkIndices ps) labels, r.length = labels.length)
    ∧ 0 ≤ accuracyValue ps labels
    ∧ accuracyValue ps labels ≤ 1
    ∧ ((∀ cs : List ℕ, cs.length = ns.length → (∀ i, cs.getD i 0 ≤ ns.getD i 0) →
          unweightedMean cs ns = datasetAcc cs ns) ↔ ∃ m, ∀ n ∈ ns, n = m) := by
  refine ⟨?_, ?_, ?_, ?_, equalsReshaped_topk ps labels, ?_, ?_, ?_,
    (accuracyValue_bounds ps labels).1, (accuracyValue_bounds ps labels).2,
    unweightedMean_iff ns hne hpos⟩
  · simp [topkIndices]
  · intro r hr
    obtain ⟨row, _, hrow⟩ := List.mem_map.mp hr
    rw [← hrow]
    rfl
  · simp [equalsReshaped, topkIndices, List.length_zipWith, hlab]
  · rw [equalsReshaped_topk]
    exact zipWith_singleton_len _ ps labels
  · intro row _ hrow
    exact argmaxIdx_spec row hrow
  · simp [equalsBroadcast, topkIndices]
  · intro r hr
    obtain ⟨row, _, hrow⟩ := List.mem_map.mp hr
    rw [← hrow]
    simp

def w_rnd : ℕ → ℕ → ℕ → ℚ := fun _ _ _ => 0

def w_lse : List ℚ → ℚ := fun _ => 0

def w_img : List (List ℚ) := List.replicate 28 (List.replicate 28 0)

def w_ops : Ops ℕ ℕ ℕ :=
  { fwd := fun p _ b => p + b
    nllLoss := fun o b => ((o + b : ℕ) : ℚ)
    accOf := fun o b => ((o * b : ℕ) : ℚ)
    stepF := fun p b => p + b }

/-- Witness for claim C3 at a concrete one-image batch of a 28-by-28 image. -/
theorem claim_C3_witness :
    (∀ img ∈ [w_img], img.length = 28 ∧ ∀ row ∈ img, row.length = 28)
    ∧ ((∀ img ∈ [w_img], img.flatten.length = 784)
      ∧ ((mkClassifier w_rnd).forward w_lse [w_img]).length = [w_img].length
      ∧ (∀ out ∈ (mkClassifier w_rnd).forward w_lse [w_img], out.length = 10)
      ∧ (mkClassifier w_rnd).fc1.weight.length = 256
      ∧ (∀ r ∈ (mkClassifier w_rnd).fc1.weight, r.length = 784)
      ∧ (mkClassifier w_rnd).fc2.weight.length = 128
      ∧ (∀ r ∈ (mkClassifier w_rnd).fc2.weight, r.length = 256)
      ∧ (mkClassifier w_rnd).fc3.weight.length = 64
      ∧ (∀ r ∈ (mkClassifier w_rnd).fc3.weight, r.length = 128)
      ∧ (mkClassifier w_rnd).fc4.weight.length = 10
      ∧ (∀ r ∈ (mkClassifier w_rnd).fc4.weight, r.length = 64)
      ∧ (∀ img : List (List ℚ), (mkClassifier w_rnd).forward1 w_lse img
          = log_softmax w_lse ((mkClassifier w_rnd).fc4.apply (reluVec
              ((mkClassifier w_rnd).fc3.apply (reluVec ((mkClassifier w_rnd).fc2.apply
                (reluVec ((mkClassifier w_rnd).fc1.apply img.flatten))))))))) :=
  have pf : ∀ img ∈ [w_img], img.length = 28 ∧ ∀ row ∈ img, row.length = 28 := by
    intro img h
    rw [List.mem_singleton] at h
    subst h
    refine ⟨by simp [w_img], ?_⟩
    intro row hr
    simp only [w_img] at hr
    rw [List.eq_of_mem_replicate hr]
    simp
  ⟨pf, claim_C3 w_rnd w_lse [w_img] pf⟩

/-- Witness for claim C8 at a concrete non-step instruction. -/
theorem claim_C8_witness :
    Instr.zeroGrad ≠ (Instr.stepI : Instr ℕ)
    ∧ ((exec w_ops [0] [1] (initState 0) Instr.zeroGrad).params
          = (initState 0 : MState ℕ ℕ ℕ).params
      ∧ Instr.saveI ∉ notebookProg [0] [1] 2
      ∧ Instr.loadI ∉ notebookProg [0] [1] 2
      ∧ (initState 0 : MState ℕ ℕ ℕ).params = 0) :=
  ⟨by decide, claim_C8 w_ops [0] [1] 0 2 Instr.zeroGrad (initState 0) (by decide)⟩

/-- Witness for claim C9 at a concrete one-example batch. -/
theorem claim_C9_witness :
    (([0] : List ℕ).length = ([[(0:ℚ)]] : List (List ℚ)).length
      ∧ ([1] : List ℕ) ≠ [] ∧ (∀ n ∈ ([1] : List ℕ), 0 < n))
    ∧ ((topkIndices [[(0:ℚ)]]).length = ([[(0:ℚ)]] : List (List ℚ)).length
      ∧ (∀ r ∈ topkIndices [[(0:ℚ)]], r.length = 1)
      ∧ (equalsReshaped (topkIndices [[(0:ℚ)]]) [0]).length
          = ([[(0:ℚ)]] : List (List ℚ)).length
      ∧ (∀ r ∈ equalsReshaped (topkIndices [[(0:ℚ)]]) [0], r.length = 1)
      ∧ equalsReshaped (topkIndices [[(0:ℚ)]]) [0]
          = List.zipWith (fun row l => [decide (argmaxIdx row = l)]) [[(0:ℚ)]] [0]
      ∧ (∀ row ∈ ([[(0:ℚ)]] : List (List ℚ)), row ≠ [] →
          argmaxIdx row < row.length ∧ ∀ v ∈ row, v ≤ row.getD (argmaxIdx row) 0)
      ∧ (equalsBroadcast (topkIndices [[(0:ℚ)]]) [0]).length
          = ([[(0:ℚ)]] : List (List ℚ)).length
      ∧ (∀ r ∈ equalsBroadcast (topkIndices [[(0:ℚ)]]) [0], r.length = ([0] : List ℕ).length)
      ∧ 0 ≤ accuracyValue [[(0:ℚ)]] [0]
      ∧ accuracyValue [[(0:ℚ)]] [0] ≤ 1
      ∧ ((∀ cs : List ℕ, cs.length = ([1] : List ℕ).length →
            (∀ i, cs.getD i 0 ≤ ([1] : List ℕ).getD i 0) →
            unweightedMean cs [1] = datasetAcc cs [1]) ↔ ∃ m, ∀ n ∈ ([1] : List ℕ), n = m)) :=
  ⟨⟨rfl, by decide, by decide⟩,
    claim_C9 [[(0:ℚ)]] [0] [1] rfl (by decide) (by decide)⟩

end P5
